import Mathlib

/-!
Shallow embedding of the CSE101 MOSS automation tool (moss_task.py, run.py).

The task-persistence core is modelled state-by-state: the TaskManager's
`tasks` dict is an association list in insertion order (Python dicts
preserve insertion order), the FIFO `Queue` is a list, and the persisted
`state.json` file is an optional serialized ledger.  The run loop, the
ledger operations, the chunk-splitting job factory, the display-name
computation of `run_moss`, and the exception boundary of `MossTask.run`
are each translated directly from the source.
-/

set_option maxHeartbeats 1000000

/-- Job descriptor: the fields of the Python class `MossTask`
    (moss_task.py lines 24-34). -/
structure MossTask where
  report_path : String
  identifier : String
  files : List String
  base_files : List String
  lang : String
  file_path : String
deriving DecidableEq

/-- Result of one executor attempt (Python class `TaskResult`,
    moss_task.py lines 18-21).  The exception is modelled by its message. -/
structure TaskResult where
  success : Bool
  ex : Option String
deriving DecidableEq

/-- Ledger entry (Python class `TaskState`, moss_task.py lines 114-117);
    `done` defaults to false at construction. -/
structure TaskState where
  task : MossTask
  done : Bool
deriving DecidableEq

/-- First-match association lookup: Python dict indexing `d[k]`
    (returns none where Python raises KeyError). -/
def assocFind {α : Type} : List (String × α) → String → Option α
  | [], _ => none
  | (k, v) :: rest, key => if k = key then some v else assocFind rest key

/-- Python dict assignment `d[k] = v`: if the key is present (dict keys are
    unique, so at the first match) the value is replaced in place, keeping
    its position; otherwise the pair is appended at the end. -/
def dictInsert {α : Type} : List (String × α) → String → α → List (String × α)
  | [], key, v => [(key, v)]
  | (k, w) :: rest, key, v =>
    if k = key then (key, v) :: rest else (k, w) :: dictInsert rest key v

/-- Contents of the persisted `state.json` file: identifier to
    (done flag, job descriptor), in dict iteration order. -/
abbrev Ledger := List (String × (Bool × MossTask))

/-- TaskManager._save_state (moss_task.py lines 142-150): the serialized
    ledger, keyed by each entry's task identifier. -/
def save_state (tasks : List (String × TaskState)) : Ledger :=
  tasks.map (fun p => (p.2.task.identifier, (p.2.done, p.2.task)))

/-- TaskManager in-memory state: the `tasks` dict, the FIFO queue `q`, and
    the persisted state file contents (`none` = no file on disk). -/
structure TMState where
  tasks : List (String × TaskState)
  q : List MossTask
  storage : Option Ledger
deriving DecidableEq

/-- TaskManager._load_state applied to a fresh manager (moss_task.py lines
    152-165): a missing file leaves the empty dict and queue; otherwise
    every persisted entry is re-created with its stored done flag and every
    job is re-enqueued, done or not. -/
def load_state (storage : Option Ledger) : TMState :=
  match storage with
  | none => ⟨[], [], none⟩
  | some ledger =>
      ⟨ledger.map (fun e => (e.1, ⟨e.2.2, e.2.1⟩)),
       ledger.map (fun e => e.2.2),
       some ledger⟩

/-- TaskManager.__init__ (moss_task.py lines 121-130): on resume the
    persisted state is loaded; otherwise any pre-existing state file is
    deleted. -/
def initTM (resume : Bool) (storage : Option Ledger) : TMState :=
  if resume then load_state storage else ⟨[], [], none⟩

/-- TaskManager.add_task (moss_task.py lines 132-135): unconditional dict
    assignment of a fresh TaskState (done=false), enqueue, persist.  There
    is no duplicate-identifier check in the source. -/
def add_task (s : TMState) (t : MossTask) : TMState :=
  ⟨dictInsert s.tasks t.identifier ⟨t, false⟩,
   s.q ++ [t],
   some (save_state (dictInsert s.tasks t.identifier ⟨t, false⟩))⟩

/-- The mutation `self.tasks[task_id].done = True` (moss_task.py line 139):
    the entry stored under the key (dict keys are unique, so the first
    match) gets its done flag set, keeping its position. -/
def setDone : List (String × TaskState) → String → List (String × TaskState)
  | [], _ => []
  | (k, st) :: rest, key =>
    if k = key then (k, ⟨st.task, true⟩) :: rest else (k, st) :: setDone rest key

/-- Failure modes of TaskManager._mark_task_as_done: `self.tasks[task_id]`
    raises KeyError on a missing identifier, and the `assert not done`
    raises AssertionError on an already-done entry. -/
inductive MarkError where
  | keyError
  | assertionError
deriving DecidableEq

/-- TaskManager._mark_task_as_done (moss_task.py lines 137-140): lookup
    (KeyError if missing), assert not done (AssertionError if already
    done), then set the flag and persist.  Both failures happen before any
    mutation, so the embedding returns a new state only on success. -/
def mark_task_as_done (s : TMState) (id : String) : Except MarkError TMState :=
  match assocFind s.tasks id with
  | none => Except.error MarkError.keyError
  | some st =>
      if st.done then Except.error MarkError.assertionError
      else Except.ok ⟨setDone s.tasks id, s.q,
                      some (save_state (setDone s.tasks id))⟩

/-- Done flag stored for an identifier, if the identifier is present. -/
def findDone (tasks : List (String × TaskState)) (id : String) : Option Bool :=
  (assocFind tasks id).map TaskState.done

/-- Observable outcome of TaskManager.run: the final tasks dict and state
    file, together with counts of loop iterations, executor invocations
    (calls of MossTask.run), cooldown sleeps, and done-skips (iterations
    ending in the `continue` at moss_task.py line 172). -/
structure RunOut where
  tasks : List (String × TaskState)
  storage : Option Ledger
  iterations : Nat
  execs : Nat
  sleeps : Nat
  skips : Nat
deriving DecidableEq

/-- TaskManager.run (moss_task.py lines 167-187).  Per dequeued task: a
    missing identifier raises KeyError inside the try, which the except
    block swallows, and the cooldown sleep still runs; an entry already
    done hits `continue`, which jumps past the sleep; otherwise the
    executor runs, a success is marked done (the assert cannot fire there:
    the entry was just checked present and not done) and persisted, and
    the sleep runs whether the attempt succeeded, failed, or re-raised the
    stored exception (which the except block also swallows). -/
def runLoop (exec : MossTask → TaskResult) :
    List (String × TaskState) → Option Ledger → List MossTask → RunOut
  | tasks, storage, [] => ⟨tasks, storage, 0, 0, 0, 0⟩
  | tasks, storage, t :: rest =>
    match assocFind tasks t.identifier with
    | none =>
        let r := runLoop exec tasks storage rest
        ⟨r.tasks, r.storage, r.iterations + 1, r.execs, r.sleeps + 1, r.skips⟩
    | some st =>
        if st.done then
          let r := runLoop exec tasks storage rest
          ⟨r.tasks, r.storage, r.iterations + 1, r.execs, r.sleeps, r.skips + 1⟩
        else
          let res := exec t
          let tasks2 := if res.success then setDone tasks t.identifier else tasks
          let storage2 := if res.success then some (save_state tasks2) else storage
          let r := runLoop exec tasks2 storage2 rest
          ⟨r.tasks, r.storage, r.iterations + 1, r.execs + 1, r.sleeps + 1, r.skips⟩

/-- TaskManager.run on a manager state. -/
def run (exec : MossTask → TaskResult) (s : TMState) : RunOut :=
  runLoop exec s.tasks s.storage s.q

/-- Filesystem effects performed by TaskManager._save_state: `open(path,
    'w')` truncates the file, then `json.dump` writes the serialized
    ledger.  No temporary file and no rename appear in the source. -/
inductive FsOp where
  | openTrunc : String → FsOp
  | writeAll : String → String → FsOp
deriving DecidableEq

/-- Effect trace of TaskManager._save_state (moss_task.py lines 149-150):
    truncate the state file in place, then write the full serialization. -/
def save_state_ops (path content : String) : List FsOp :=
  [FsOp.openTrunc path, FsOp.writeAll path content]

/-- One filesystem step over a name-to-contents map. -/
def applyOp (fs : List (String × String)) : FsOp → List (String × String)
  | FsOp.openTrunc p => dictInsert fs p ""
  | FsOp.writeAll p d =>
      dictInsert fs p ((match assocFind fs p with
                        | some c => c
                        | none => "") ++ d)

/-- Filesystem state after a sequence of effects; a crash after `k` effects
    leaves the state `applyOps fs (ops.take k)` visible. -/
def applyOps (fs : List (String × String)) (ops : List FsOp) :
    List (String × String) :=
  ops.foldl applyOp fs

/-- run.py line 44. -/
def FILES_NUM_LIMIT : Int := 350

/-- run.py line 45. -/
def MIN_FILES_NUM : Int := 50

/-- Chunk step size from create_moss_tasks (run.py line 115):
    size = max(min(MIN_FILES_NUM, len(prev)), min(remaining, len(prev)))
    with remaining = FILES_NUM_LIMIT - len(this_quarter_files). -/
def chunk_size (thisCount prevCount : Int) : Int :=
  max (min MIN_FILES_NUM prevCount) (min (FILES_NUM_LIMIT - thisCount) prevCount)

/-- Successive slices `l[s:s+k]` for s in range(0, len(l), k), written with
    fuel so it computes structurally; fuel = len(l) suffices when k >= 1. -/
def chunksAux {α : Type} (k : Nat) : Nat → List α → List (List α)
  | _, [] => []
  | 0, l => [l]
  | n + 1, l => l.take k :: chunksAux k n (l.drop k)

/-- The chunks of one previous-quarter group produced by create_moss_tasks
    (run.py lines 115-116) given the current-quarter file count. -/
def prev_group_chunks {α : Type} (thisCount : Int) (prev : List α) :
    List (List α) :=
  chunksAux (chunk_size thisCount ((prev.length : Int))).toNat prev.length prev

/-- Whether the second list starts with the first (character lists). -/
def startsWithL : List Char → List Char → Bool
  | [], _ => true
  | _ :: _, [] => false
  | p :: ps, c :: cs => p == c && startsWithL ps cs

/-- Whether the pattern occurs as a contiguous sublist. -/
def occursIn (pat : List Char) : List Char → Bool
  | [] => pat.isEmpty
  | c :: rest => startsWithL pat (c :: rest) || occursIn pat rest

/-- Python str.replace(pat, '') scanning left to right removing every
    non-overlapping occurrence; an empty pattern leaves the string
    unchanged (replacing '' by '' inserts nothing).  Fuel = length of the
    scanned list makes the recursion structural. -/
def removeAllAux (pat : List Char) : Nat → List Char → List Char
  | _, [] => []
  | 0, l => l
  | n + 1, c :: rest =>
    if !pat.isEmpty && startsWithL pat (c :: rest) then
      removeAllAux pat n ((c :: rest).drop pat.length)
    else
      c :: removeAllAux pat n rest

/-- Python `s.replace(pat, '')`. -/
def str_replace (s pat : String) : String :=
  ⟨removeAllAux pat.data s.data.length s.data⟩

/-- Display name of an uploaded file, from MossTask.run_moss line 60:
    `file.replace(self.file_path, '')`. -/
def display_name (file file_path : String) : String :=
  str_replace file file_path

/-- Modelled from the spec sentence "a path prefix stripped from each input
    file's path": remove the leading occurrence only, and only when the
    path starts with it.  Stated for comparison with `display_name`. -/
def display_name_spec (file pre : String) : String :=
  if startsWithL pre.data file.data then ⟨file.data.drop pre.data.length⟩
  else file

/-- Submissions performed by MossTask.run_moss (moss_task.py lines 56-61):
    first every base file via addBaseFile (no display name), then every
    input file via addFile with its computed display name.  Encoded as
    (isBase, path, display name). -/
def run_moss_submissions (t : MossTask) : List (Bool × String × Option String) :=
  t.base_files.map (fun b => (true, b, none)) ++
  t.files.map (fun f => (false, f, some (display_name f t.file_path)))

/-- Environment of one MossTask.run call: whether the clear() before the
    try raises (shutil.rmtree can), whether run_moss raises, and whether
    the clear() in the failure branch raises.  Exceptions are modelled by
    their message. -/
structure ExecEnv where
  clearBefore : Option String
  runMossExc : Option String
  clearAfter : Option String
deriving DecidableEq

/-- MossTask.run (moss_task.py lines 36-46).  The first clear() sits before
    the try block, and the failure-branch clear() sits after it, so an
    exception from either propagates (`Except.error`); an exception inside
    run_moss is caught and turned into TaskResult(success=False, ex=e);
    when run_moss returns (it only returns True) the result is
    TaskResult(success=True, ex=None). -/
def moss_run (env : ExecEnv) : Except String TaskResult :=
  match env.clearBefore with
  | some e => Except.error e
  | none =>
    match env.runMossExc with
    | none => Except.ok ⟨true, none⟩
    | some e =>
      match env.clearAfter with
      | some e2 => Except.error e2
      | none => Except.ok ⟨false, some e⟩

/-- Concrete job used by witnesses and counterexamples. -/
def t0 : MossTask := ⟨"out/r1", "a", ["/data/f.c"], [], "c", "/data/"⟩

/-- Second concrete job sharing the identifier of `t0`. -/
def t1 : MossTask := ⟨"out/r2", "a", ["/data/g.c"], [], "c", "/data/"⟩

/-- Executor that always succeeds. -/
def execAlwaysOk : MossTask → TaskResult := fun _ => ⟨true, none⟩

/-- Executor that always fails. -/
def execAlwaysFail : MossTask → TaskResult := fun _ => ⟨false, some "neterr"⟩

/-- Fully-done persisted ledger with one entry. -/
def ledger0 : Ledger := [("a", (true, t0))]

/-- Manager state holding one not-yet-done entry for `t0`. -/
def s5 : TMState := ⟨[("a", ⟨t0, false⟩)], [], none⟩

/-- State after adding `t0` and then `t1` (same identifier) to a fresh
    manager. -/
def dupState : TMState := add_task (add_task ⟨[], [], none⟩ t0) t1

/-! Helper lemmas about the association-list dict operations. -/

theorem assocFind_mem {α : Type} {l : List (String × α)} {key : String} {v : α}
    (h : assocFind l key = some v) : (key, v) ∈ l := by
  induction l with
  | nil => simp [assocFind] at h
  | cons p rest ih =>
    obtain ⟨k, w⟩ := p
    by_cases hk : k = key
    · subst hk
      simp [assocFind] at h
      simp [h]
    · simp [assocFind, hk] at h
      exact List.mem_cons_of_mem _ (ih h)


theorem assocFind_dictInsert_self {α : Type} (l : List (String × α))
    (key : String) (v : α) :
    assocFind (dictInsert l key v) key = some v := by
  induction l with
  | nil => simp [dictInsert, assocFind]
  | cons p rest ih =>
    obtain ⟨k, w⟩ := p
    by_cases hk : k = key
    · simp [dictInsert, hk, assocFind]
    · simp [dictInsert, hk, assocFind, ih]

theorem assocFind_dictInsert_other {α : Type} (l : List (String × α))
    (key id : String) (v : α) (h : id ≠ key) :
    assocFind (dictInsert l key v) id = assocFind l id := by
  induction l with
  | nil => simp [dictInsert, assocFind, Ne.symm h]
  | cons p rest ih =>
    obtain ⟨k, w⟩ := p
    by_cases hk : k = key
    · subst hk
      simp [dictInsert, assocFind, Ne.symm h]
    · simp [dictInsert, hk, assocFind, ih]

theorem assocFind_setDone_other {l : List (String × TaskState)} {key id : String}
    (h : id ≠ key) : assocFind (setDone l key) id = assocFind l id := by
  induction l with
  | nil => rfl
  | cons p rest ih =>
    obtain ⟨k, st⟩ := p
    by_cases hk : k = key
    · subst hk
      have hki : ¬ k = id := fun hkk => h (hkk ▸ rfl)
      simp [setDone, assocFind, hki]
    · simp [setDone, hk, assocFind, ih]

theorem assocFind_setDone_self {l : List (String × TaskState)} {id : String}
    {st : TaskState} (h : assocFind l id = some st) :
    assocFind (setDone l id) id = some ⟨st.task, true⟩ := by
  induction l with
  | nil => simp [assocFind] at h
  | cons p rest ih =>
    obtain ⟨k, w⟩ := p
    by_cases hk : k = id
    · subst hk
      simp [assocFind] at h
      simp [setDone, assocFind, h]
    · simp [assocFind, hk] at h
      simp [setDone, assocFind, hk, ih h]

/-! Lemmas about the queue-runner loop. -/

theorem runLoop_execs_zero (exec : MossTask → TaskResult)
    (tasks : List (String × TaskState)) (h : ∀ p ∈ tasks, p.2.done = true) :
    ∀ (q : List MossTask) (storage : Option Ledger),
      (runLoop exec tasks storage q).execs = 0 := by
  intro q
  induction q with
  | nil => intro storage; rfl
  | cons t rest ih =>
    intro storage
    rw [runLoop]
    cases hf : assocFind tasks t.identifier with
    | none => simpa using ih storage
    | some st =>
      have hd : st.done = true := h _ (assocFind_mem hf)
      simp only [hd, if_true]
      simpa using ih storage

theorem runLoop_sleep_skip_split (exec : MossTask → TaskResult) :
    ∀ (q : List MossTask) (tasks : List (String × TaskState))
      (storage : Option Ledger),
      (runLoop exec tasks storage q).sleeps + (runLoop exec tasks storage q).skips
        = (runLoop exec tasks storage q).iterations := by
  intro q
  induction q with
  | nil => intro tasks storage; rfl
  | cons t rest ih =>
    intro tasks storage
    rw [runLoop]
    cases hf : assocFind tasks t.identifier with
    | none =>
      have := ih tasks storage
      simp
      omega
    | some st =>
      by_cases hd : st.done
      · have := ih tasks storage
        simp [hd]
        omega
      · by_cases hs : (exec t).success
        · have := ih (setDone tasks t.identifier)
            (some (save_state (setDone tasks t.identifier)))
          simp [hd, hs]
          omega
        · have := ih tasks storage
          simp [hd, hs]
          omega

theorem runLoop_keeps_not_done (exec : MossTask → TaskResult) (id : String)
    (hfail : ∀ t : MossTask, t.identifier = id → (exec t).success = false) :
    ∀ (q : List MossTask) (tasks : List (String × TaskState))
      (storage : Option Ledger),
      findDone tasks id = some false →
      findDone (runLoop exec tasks storage q).tasks id = some false := by
  intro q
  induction q with
  | nil => intro tasks storage h; exact h
  | cons t rest ih =>
    intro tasks storage h
    rw [runLoop]
    cases hf : assocFind tasks t.identifier with
    | none => simpa using ih tasks storage h
    | some st =>
      by_cases hd : st.done
      · simp only [hd, if_true]
        simpa using ih tasks storage h
      · by_cases hs : (exec t).success
        · have hne : t.identifier ≠ id := by
            intro he
            rw [hfail t he] at hs
            simp at hs
          simp only [hd, hs, if_false, if_true, Bool.false_eq_true]
          have h2 : findDone (setDone tasks t.identifier) id = some false := by
            rw [findDone, assocFind_setDone_other (Ne.symm hne)]
            exact h
          simpa using ih (setDone tasks t.identifier)
            (some (save_state (setDone tasks t.identifier))) h2
        · simp only [hd, hs, if_false, Bool.false_eq_true]
          simpa using ih tasks storage h

theorem runLoop_done_monotone (exec : MossTask → TaskResult) (id : String) :
    ∀ (q : List MossTask) (tasks : List (String × TaskState))
      (storage : Option Ledger),
      findDone tasks id = some true →
      findDone (runLoop exec tasks storage q).tasks id = some true := by
  intro q
  induction q with
  | nil => intro tasks storage h; exact h
  | cons t rest ih =>
    intro tasks storage h
    rw [runLoop]
    cases hf : assocFind tasks t.identifier with
    | none => simpa using ih tasks storage h
    | some st =>
      by_cases hd : st.done
      · simp only [hd, if_true]
        simpa using ih tasks storage h
      · by_cases hs : (exec t).success
        · simp only [hd, hs, if_false, if_true, Bool.false_eq_true]
          have h2 : findDone (setDone tasks t.identifier) id = some true := by
            by_cases hne : t.identifier = id
            · subst hne
              rw [findDone] at h
              cases hfind : assocFind tasks t.identifier with
              | none => rw [hfind] at h; simp at h
              | some st2 =>
                rw [findDone, assocFind_setDone_self hfind]
                rfl
            · rw [findDone, assocFind_setDone_other (Ne.symm hne)]
              exact h
          simpa using ih (setDone tasks t.identifier)
            (some (save_state (setDone tasks t.identifier))) h2
        · simp only [hd, hs, if_false, Bool.false_eq_true]
          simpa using ih tasks storage h

/-! Claim theorems. -/

/-- C1.  Idempotent resume: when every entry of the persisted ledger is
    marked done, a TaskManager constructed with resume=true (which
    re-enqueues every persisted job, done ones included) performs zero
    executor invocations on a subsequent run: the per-iteration done-check
    skips every dequeued job. -/
theorem resume_idempotent (exec : MossTask → TaskResult) (ledger : Ledger)
    (h : ∀ e ∈ ledger, e.2.1 = true) :
    (run exec (initTM true (some ledger))).execs = 0 := by
  have hall : ∀ p ∈ (load_state (some ledger)).tasks, p.2.done = true := by
    intro p hp
    simp only [load_state, List.mem_map] at hp
    obtain ⟨e, he, rfl⟩ := hp
    exact h e he
  simpa [run, initTM] using
    runLoop_execs_zero exec (load_state (some ledger)).tasks hall
      (load_state (some ledger)).q (load_state (some ledger)).storage

/-- Witness for C1 at a concrete one-entry, fully-done ledger. -/
theorem resume_idempotent_witness :
    (∀ e ∈ ledger0, e.2.1 = true) ∧
    (run execAlwaysOk (initTM true (some ledger0))).execs = 0 :=
  ⟨by decide, resume_idempotent execAlwaysOk ledger0 (by decide)⟩

/-- C2.  The done flag is initially false (add_task stores a fresh entry
    with done=false), it is set only after a successful execution (a job
    whose executor always fails keeps done=false through the whole run),
    and it is monotonic (an entry once done stays done through any run). -/
theorem done_only_after_success :
    (∀ (s : TMState) (t : MossTask),
        assocFind (add_task s t).tasks t.identifier = some ⟨t, false⟩) ∧
    (∀ (exec : MossTask → TaskResult) (id : String),
        (∀ t : MossTask, t.identifier = id → (exec t).success = false) →
        ∀ (q : List MossTask) (tasks : List (String × TaskState))
          (storage : Option Ledger),
          findDone tasks id = some false →
          findDone (runLoop exec tasks storage q).tasks id = some false) ∧
    (∀ (exec : MossTask → TaskResult) (id : String)
        (q : List MossTask) (tasks : List (String × TaskState))
        (storage : Option Ledger),
        findDone tasks id = some true →
        findDone (runLoop exec tasks storage q).tasks id = some true) := by
  refine ⟨?_, ?_, ?_⟩
  · intro s t
    simp [add_task, assocFind_dictInsert_self]
  · intro exec id hfail q tasks storage h
    exact runLoop_keeps_not_done exec id hfail q tasks storage h
  · intro exec id q tasks storage h
    exact runLoop_done_monotone exec id q tasks storage h

/-- Witness for C2: an always-failing executor leaves the single pending
    entry not done after the run. -/
theorem done_only_after_success_witness :
    (∀ t : MossTask, t.identifier = "a" → (execAlwaysFail t).success = false) ∧
    findDone (runLoop execAlwaysFail [("a", ⟨t0, false⟩)] none [t0]).tasks "a"
      = some false :=
  ⟨fun _ _ => rfl,
   done_only_after_success.2.1 execAlwaysFail "a" (fun _ _ => rfl)
     [t0] [("a", ⟨t0, false⟩)] none rfl⟩

/-- C3 counterexample.  A dequeued job whose entry is already done hits the
    `continue` at moss_task.py line 172, which jumps past the cooldown
    sleep at line 186: one iteration runs, zero sleeps happen.  This
    refutes the claim that the sleep is performed unconditionally in every
    iteration, including skip iterations. -/
theorem cooldown_skip_cex :
    (runLoop execAlwaysOk [("a", ⟨t0, true⟩)] none [t0]).iterations = 1 ∧
    (runLoop execAlwaysOk [("a", ⟨t0, true⟩)] none [t0]).sleeps = 0 ∧
    (runLoop execAlwaysOk [("a", ⟨t0, true⟩)] none [t0]).skips = 1 :=
  ⟨rfl, rfl, rfl⟩

/-- C3 amended.  The cooldown sleep runs after every iteration except the
    done-skip iterations: in every run, sleeps + skips = iterations, where
    skips counts exactly the iterations that dequeued an already-done
    entry.  Executed iterations (successful or failed) and iterations that
    swallow a KeyError all sleep. -/
theorem cooldown_except_skips (exec : MossTask → TaskResult)
    (q : List MossTask) (tasks : List (String × TaskState))
    (storage : Option Ledger) :
    (runLoop exec tasks storage q).sleeps + (runLoop exec tasks storage q).skips
      = (runLoop exec tasks storage q).iterations :=
  runLoop_sleep_skip_split exec q tasks storage

/-- C10.  Constructing a TaskManager with resume=true and no persisted
    state file yields the empty ledger and empty queue, and a subsequent
    run performs zero iterations and zero executor invocations. -/
theorem resume_no_state_file (exec : MossTask → TaskResult) :
    (initTM true none).tasks = [] ∧ (initTM true none).q = [] ∧
    (run exec (initTM true none)).iterations = 0 ∧
    (run exec (initTM true none)).execs = 0 :=
  ⟨rfl, rfl, rfl, rfl⟩

/-- C4 counterexample.  Adding a second job with an identifier already
    present does not report any error: add_task overwrites the existing
    entry (replacing t0's entry by t1's, resetting done to false) and
    enqueues the job a second time.  This refutes the claim that the add
    operation fails rather than inserting on a duplicate identifier. -/
theorem add_task_duplicate_cex :
    assocFind dupState.tasks "a" = some ⟨t1, false⟩ ∧
    some (⟨t1, false⟩ : TaskState) ≠ some (⟨t0, false⟩ : TaskState) ∧
    dupState.q = [t0, t1] := by
  refine ⟨rfl, ?_, rfl⟩
  decide

/-- C4 amended.  add_task never fails: it stores a fresh entry with
    done=false under the job's identifier (overwriting any existing entry
    with that identifier, duplicate or not), appends the job to the pending
    queue, persists the ledger, and leaves every other identifier's entry
    unchanged. -/
theorem add_task_behavior (s : TMState) (t : MossTask) :
    assocFind (add_task s t).tasks t.identifier = some ⟨t, false⟩ ∧
    (add_task s t).q = s.q ++ [t] ∧
    (add_task s t).storage = some (save_state (add_task s t).tasks) ∧
    ∀ id : String, id ≠ t.identifier →
      assocFind (add_task s t).tasks id = assocFind s.tasks id := by
  refine ⟨?_, rfl, rfl, ?_⟩
  · simp [add_task, assocFind_dictInsert_self]
  · intro id hid
    simp [add_task, assocFind_dictInsert_other _ _ _ _ hid]

/-- Witness for C4's amended claim at a concrete state and identifier. -/
theorem add_task_behavior_witness :
    ("b" : String) ≠ t0.identifier ∧
    assocFind (add_task ⟨[], [], none⟩ t0).tasks "b"
      = assocFind (⟨[], [], none⟩ : TMState).tasks "b" :=
  ⟨by decide, (add_task_behavior ⟨[], [], none⟩ t0).2.2.2 "b" (by decide)⟩

/-- C5.  _mark_task_as_done fails loudly on a missing identifier (KeyError)
    and on an already-done entry (AssertionError), and succeeds exactly on
    an existing not-done entry, setting its flag, persisting the ledger,
    leaving the queue and every other entry unchanged.  Both failures are
    raised before any mutation, which the embedding reflects by producing a
    state only in the success case. -/
theorem mark_task_as_done_spec (s : TMState) (id : String) :
    (assocFind s.tasks id = none →
       mark_task_as_done s id = Except.error MarkError.keyError) ∧
    (∀ st : TaskState, assocFind s.tasks id = some st → st.done = true →
       mark_task_as_done s id = Except.error MarkError.assertionError) ∧
    (∀ st : TaskState, assocFind s.tasks id = some st → st.done = false →
       ∃ s2 : TMState, mark_task_as_done s id = Except.ok s2 ∧
         findDone s2.tasks id = some true ∧
         s2.storage = some (save_state s2.tasks) ∧
         s2.q = s.q ∧
         ∀ j : String, j ≠ id → assocFind s2.tasks j = assocFind s.tasks j) := by
  refine ⟨?_, ?_, ?_⟩
  · intro h
    simp [mark_task_as_done, h]
  · intro st h hd
    simp [mark_task_as_done, h, hd]
  · intro st h hd
    refine ⟨⟨setDone s.tasks id, s.q, some (save_state (setDone s.tasks id))⟩,
            ?_, ?_, rfl, rfl, ?_⟩
    · simp [mark_task_as_done, h, hd]
    · simp [findDone, assocFind_setDone_self h]
    · intro j hj
      exact assocFind_setDone_other hj

/-- Witness for C5 at a concrete one-entry state: marking the pending entry
    succeeds and flips its flag. -/
theorem mark_task_as_done_spec_witness :
    assocFind s5.tasks "a" = some ⟨t0, false⟩ ∧
    (⟨t0, false⟩ : TaskState).done = false ∧
    ∃ s2 : TMState, mark_task_as_done s5 "a" = Except.ok s2 ∧
      findDone s2.tasks "a" = some true ∧
      s2.storage = some (save_state s2.tasks) ∧
      s2.q = s5.q ∧
      ∀ j : String, j ≠ "a" → assocFind s2.tasks j = assocFind s5.tasks j :=
  ⟨rfl, rfl, (mark_task_as_done_spec s5 "a").2.2 ⟨t0, false⟩ rfl rfl⟩

/-- C6 counterexample.  _save_state opens the state file with mode 'w'
    (truncation in place) and then writes; there is no temporary file and
    no rename.  A crash between the truncating open and the write (after
    the first of the two effects) leaves an empty file visible at the state
    path: neither the old contents "OLD" nor the new contents "NEW".  This
    refutes the claim that persist never leaves a partially-written state
    file visible to a subsequent load. -/
theorem save_state_partial_cex :
    assocFind
      (applyOps [("state.json", "OLD")]
        ((save_state_ops "state.json" "NEW").take 1))
      "state.json" = some "" ∧
    (some "" : Option String) ≠ some "OLD" ∧
    (some "" : Option String) ≠ some "NEW" := by
  refine ⟨rfl, ?_, ?_⟩ <;> decide

/-- C6 amended.  _save_state performs a full rewrite of the ledger to the
    state file, but in place: the complete trace yields the new contents,
    while the intermediate state after the truncating open (a crash point)
    exposes an empty file, which differs from both the old and the new
    contents whenever both are non-empty — there is no write-temp-then-
    rename step. -/
theorem save_state_in_place (p old c : String) (fs : List (String × String))
    (hold : assocFind fs p = some old) (h1 : old ≠ "") (h2 : c ≠ "") :
    assocFind (applyOps fs ((save_state_ops p c).take 0)) p = some old ∧
    assocFind (applyOps fs (save_state_ops p c)) p = some c ∧
    assocFind (applyOps fs ((save_state_ops p c).take 1)) p = some "" ∧
    (some "" : Option String) ≠ some old ∧
    (some "" : Option String) ≠ some c := by
  refine ⟨?_, ?_, ?_, ?_, ?_⟩
  · simpa [applyOps, save_state_ops] using hold
  · simp [applyOps, save_state_ops, applyOp, assocFind_dictInsert_self]
  · simp [applyOps, save_state_ops, applyOp, assocFind_dictInsert_self]
  · simpa using fun he => h1 he.symm
  · simpa using fun he => h2 he.symm

/-- Witness for C6's amended claim at the concrete old/new contents. -/
theorem save_state_in_place_witness :
    (assocFind [("state.json", "OLD")] "state.json" = some "OLD" ∧
      ("OLD" : String) ≠ "" ∧ ("NEW" : String) ≠ "") ∧
    assocFind
      (applyOps [("state.json", "OLD")] (save_state_ops "state.json" "NEW"))
      "state.json" = some "NEW" :=
  ⟨⟨rfl, by decide, by decide⟩,
   (save_state_in_place "state.json" "OLD" "NEW" [("state.json", "OLD")]
      rfl (by decide) (by decide)).2.1⟩

/-! Lemmas about chunk splitting. -/

theorem chunksAux_ne_nil {α : Type} (k fuel : Nat) (l : List α) (h : l ≠ []) :
    chunksAux k fuel l ≠ [] := by
  cases l with
  | nil => exact absurd rfl h
  | cons a l' =>
    cases fuel with
    | zero => simp [chunksAux]
    | succ n => simp [chunksAux]

theorem chunksAux_join {α : Type} (k : Nat) (hk : 1 ≤ k) :
    ∀ (fuel : Nat) (l : List α), l.length ≤ fuel →
      (chunksAux k fuel l).flatten = l ∧
      (∀ c ∈ chunksAux k fuel l, c ≠ [] ∧ c.length ≤ k) ∧
      (∀ c ∈ (chunksAux k fuel l).dropLast, c.length = k) := by
  intro fuel
  induction fuel with
  | zero =>
    intro l hl
    have hnil : l = [] := List.eq_nil_of_length_eq_zero (Nat.le_zero.mp hl)
    subst hnil
    exact ⟨rfl, by intro c hc; simp [chunksAux] at hc,
           by intro c hc; simp [chunksAux] at hc⟩
  | succ n ih =>
    intro l hl
    cases l with
    | nil =>
      exact ⟨rfl, by intro c hc; simp [chunksAux] at hc,
             by intro c hc; simp [chunksAux] at hc⟩
    | cons a l' =>
      have hdrop : ((a :: l').drop k).length ≤ n := by
        rw [List.length_drop]
        simp only [List.length_cons] at hl ⊢
        omega
      obtain ⟨ihj, ihm, ihd⟩ := ih ((a :: l').drop k) hdrop
      have hstep : chunksAux k (n + 1) (a :: l')
          = (a :: l').take k :: chunksAux k n ((a :: l').drop k) := rfl
      refine ⟨?_, ?_, ?_⟩
      · rw [hstep, List.flatten_cons, ihj, List.take_append_drop]
      · intro c hc
        rw [hstep] at hc
        rcases List.mem_cons.mp hc with h1 | h1
        · subst h1
          constructor
          · apply List.ne_nil_of_length_pos
            rw [List.length_take]
            simp only [List.length_cons]
            omega
          · rw [List.length_take]
            omega
        · exact ihm c h1
      · intro c hc
        rw [hstep] at hc
        by_cases hd : (a :: l').drop k = []
        · rw [hd] at hc
          simp [chunksAux] at hc
        · have hne : chunksAux k n ((a :: l').drop k) ≠ [] :=
            chunksAux_ne_nil k n _ hd
          rw [List.dropLast_cons_of_ne_nil hne] at hc
          rcases List.mem_cons.mp hc with h1 | h1
          · subst h1
            have hlen : k < (a :: l').length := by
              have hp := List.length_pos.mpr hd
              rw [List.length_drop] at hp
              omega
            rw [List.length_take]
            omega
          · exact ihd c h1

/-- C7 counterexample.  Both bounds of the claimed interval [min(F, P), R]
    fail on the code.  Lower bound: with a current-group file count of 253
    (remaining capacity R = 350 - 253 = 97) and a previous group of
    P = 120 files, the step size is max(min(50, 120), min(97, 120)) = 97,
    so the chunks have sizes 97 and 23, and the final chunk of 23 files is
    below min(F, P) = 50.  Upper bound: with a current-group count of 310
    (R = 40) and P = 60 files, the step size is max(min(50, 60),
    min(40, 60)) = 50, so the chunks have sizes 50 and 10: the first chunk
    of 50 files exceeds R = 40, and the final chunk of 10 is again below
    min(F, P) = 50. -/
theorem chunk_bounds_cex :
    (prev_group_chunks 253 (List.range 120)).map List.length = [97, 23] ∧
    ¬ (min MIN_FILES_NUM 120 ≤ (23 : Int)) ∧
    (prev_group_chunks 310 (List.range 60)).map List.length = [50, 10] ∧
    ¬ ((50 : Int) ≤ FILES_NUM_LIMIT - 310) ∧
    ¬ (min MIN_FILES_NUM 60 ≤ (10 : Int)) := by
  exact ⟨rfl, by decide, rfl, by decide, by decide⟩

/-- C7 amended.  For every non-empty previous group, the produced chunks
    partition the group's P files exactly (no file dropped or duplicated,
    in order); every chunk except possibly the last has size exactly the
    step size max(min(MIN_FILES_NUM, P), min(FILES_NUM_LIMIT - thisCount,
    P)), and every chunk, the last included, is non-empty with size at
    most that step size.  Neither bound of the claimed interval
    [min(F, P), R] holds in general: the final chunk can fall below
    min(F, P), and when R < F a chunk can exceed R. -/
theorem chunks_partition_bounded {α : Type} (thisCount : Int) (prev : List α)
    (h : prev ≠ []) :
    (prev_group_chunks thisCount prev).flatten = prev ∧
    (∀ c ∈ prev_group_chunks thisCount prev, c ≠ [] ∧
      c.length ≤ (chunk_size thisCount ((prev.length : Int))).toNat) ∧
    (∀ c ∈ (prev_group_chunks thisCount prev).dropLast,
      c.length = (chunk_size thisCount ((prev.length : Int))).toNat) := by
  have hP : (1 : Int) ≤ (prev.length : Int) := by
    have h1 : 1 ≤ prev.length := List.length_pos.mpr h
    omega
  have h50 : (1 : Int) ≤ min MIN_FILES_NUM ((prev.length : Int)) :=
    le_min (by norm_num [MIN_FILES_NUM]) hP
  have hs : (1 : Int) ≤ chunk_size thisCount ((prev.length : Int)) :=
    le_trans h50 (le_max_left _ _)
  have hk : 1 ≤ (chunk_size thisCount ((prev.length : Int))).toNat := by
    omega
  exact chunksAux_join _ hk prev.length prev (le_refl _)

/-- Witness for C7's amended claim at a concrete two-chunk instance: the
    chunks of 120 files partition them exactly and the non-last chunk has
    exactly the step size 97. -/
theorem chunks_partition_bounded_witness :
    (List.range 120 ≠ []) ∧
    (prev_group_chunks 253 (List.range 120)).flatten = List.range 120 ∧
    ∀ c ∈ (prev_group_chunks 253 (List.range 120)).dropLast,
      c.length = (chunk_size 253 ((120 : Nat) : Int)).toNat :=
  ⟨by decide,
   (chunks_partition_bounded 253 (List.range 120) (by decide)).1,
   by
     have hmain := (chunks_partition_bounded 253 (List.range 120)
       (by decide)).2.2
     simpa using hmain⟩

/-! Lemmas about the display-name computation. -/

theorem startsWithL_self (p t : List Char) : startsWithL p (p ++ t) = true := by
  induction p with
  | nil => rfl
  | cons c cs ih => simp [startsWithL, ih]

theorem drop_len_append {α : Type} (l₁ l₂ : List α) :
    (l₁ ++ l₂).drop l₁.length = l₂ := by
  induction l₁ with
  | nil => rfl
  | cons c cs ih => simp [ih]

theorem removeAllAux_no_occurrence (pat : List Char) :
    ∀ (n : Nat) (l : List Char), occursIn pat l = false →
      removeAllAux pat n l = l := by
  intro n
  induction n with
  | zero => intro l h; cases l <;> rfl
  | succ n ih =>
    intro l h
    cases l with
    | nil => rfl
    | cons c rest =>
      rw [occursIn, Bool.or_eq_false_iff] at h
      rw [removeAllAux, h.1]
      simp [ih rest h.2]

theorem str_replace_strip (pre rest : List Char) (hne : pre ≠ [])
    (hocc : occursIn pre rest = false) :
    str_replace ⟨pre ++ rest⟩ ⟨pre⟩ = ⟨rest⟩ := by
  show String.mk (removeAllAux pre (pre ++ rest).length (pre ++ rest)) = ⟨rest⟩
  congr 1
  cases pre with
  | nil => exact absurd rfl hne
  | cons p ps =>
    rw [List.cons_append, List.length_cons, removeAllAux]
    have hsw : startsWithL (p :: ps) (p :: (ps ++ rest)) = true := by
      simpa using startsWithL_self (p :: ps) rest
    rw [hsw]
    simp only [List.isEmpty, Bool.not_false, Bool.and_true, Bool.true_and,
      if_true]
    rw [List.length_cons, List.drop_succ_cons, drop_len_append]
    exact removeAllAux_no_occurrence _ _ rest hocc

/-- C8 counterexample.  run_moss computes the display name with Python
    file.replace(file_path, ''), which removes every occurrence of the
    substring, not only a leading path prefix: for the path
    /data/a/data/b.c with display_prefix /data/ the code produces "ab.c"
    (both occurrences removed, including one spanning the middle of the
    path), while stripping the path prefix as claimed would produce
    "a/data/b.c".  This refutes the claim that the display name is the
    path with the display_prefix path prefix stripped. -/
theorem display_name_cex :
    display_name "/data/a/data/b.c" "/data/" = "ab.c" ∧
    display_name_spec "/data/a/data/b.c" "/data/" = "a/data/b.c" ∧
    ("ab.c" : String) ≠ "a/data/b.c" := by
  refine ⟨?_, ?_, ?_⟩ <;> decide

/-- C8 amended.  Baseline files are submitted without a display name;
    every input file is submitted with display name file.replace(
    file_path, ''), i.e. the file's path with every occurrence of the
    display_prefix substring removed.  When the path is the prefix
    followed by a remainder in which the prefix does not occur, this
    coincides with stripping the path prefix; in particular
    /data/team1/main.c with prefix /data/ yields team1/main.c. -/
theorem display_name_replace_all :
    (∀ t : MossTask, ∀ s ∈ run_moss_submissions t, s.1 = true → s.2.2 = none) ∧
    (∀ t : MossTask, ∀ f ∈ t.files,
        (false, f, some (display_name f t.file_path)) ∈ run_moss_submissions t) ∧
    (∀ pre rest : List Char, pre ≠ [] → occursIn pre rest = false →
        display_name ⟨pre ++ rest⟩ ⟨pre⟩ = ⟨rest⟩) ∧
    display_name "/data/team1/main.c" "/data/" = "team1/main.c" := by
  refine ⟨?_, ?_, ?_, by decide⟩
  · intro t s hs hb
    simp only [run_moss_submissions, List.mem_append, List.mem_map] at hs
    rcases hs with ⟨b, hbm, rfl⟩ | ⟨f, hfm, rfl⟩
    · rfl
    · simp at hb
  · intro t f hf
    simp only [run_moss_submissions, List.mem_append, List.mem_map]
    exact Or.inr ⟨f, hf, rfl⟩
  · intro pre rest hne hocc
    exact str_replace_strip pre rest hne hocc

/-- Witness for C8's amended claim at the concrete prefix-only path. -/
theorem display_name_replace_all_witness :
    ("/data/".data ≠ [] ∧ occursIn "/data/".data "team1/main.c".data = false) ∧
    display_name ⟨"/data/".data ++ "team1/main.c".data⟩ ⟨"/data/".data⟩
      = ⟨"team1/main.c".data⟩ :=
  ⟨⟨by decide, by decide⟩,
   display_name_replace_all.2.2.1 "/data/".data "team1/main.c".data
     (by decide) (by decide)⟩

/-- C9 counterexample.  The clear() call at moss_task.py line 38 sits
    before the try block: when it raises (shutil.rmtree can raise OSError),
    the exception propagates out of MossTask.run instead of being converted
    into a TaskResult.  This refutes the claim that no failure of the
    executor escapes as a raised exception past MossTask.run's boundary. -/
theorem executor_boundary_cex :
    moss_run ⟨some "oserror", none, none⟩ = Except.error "oserror" ∧
    (moss_run ⟨some "oserror", none, none⟩).isOk = false :=
  ⟨rfl, rfl⟩

/-- C9 amended.  Provided the two output-clearing calls do not themselves
    raise, every exception raised inside run_moss (submission, service
    wait, report persistence) is caught at the boundary and returned as
    TaskResult(success=false, ex=cause), a completed run_moss yields
    TaskResult(success=true, ex=none), and success=true is returned exactly
    when run_moss raised nothing; an exception from either clear() call,
    which sits outside the try block, still propagates. -/
theorem executor_boundary_amended (env : ExecEnv)
    (h1 : env.clearBefore = none) (h2 : env.clearAfter = none) :
    (∀ e : String, env.runMossExc = some e →
        moss_run env = Except.ok ⟨false, some e⟩) ∧
    (env.runMossExc = none → moss_run env = Except.ok ⟨true, none⟩) ∧
    (∀ r : TaskResult, moss_run env = Except.ok r →
        (r.success = true ↔ env.runMossExc = none)) := by
  obtain ⟨cb, rm, ca⟩ := env
  simp only at h1 h2
  subst h1; subst h2
  refine ⟨?_, ?_, ?_⟩
  · intro e he
    simp only at he
    subst he
    rfl
  · intro he
    simp only at he
    subst he
    rfl
  · intro r hr
    cases rm with
    | none =>
      simp [moss_run] at hr
      simp [← hr]
    | some e =>
      simp [moss_run] at hr
      simp [← hr]

/-- Witness for C9's amended claim: a network error inside run_moss is
    returned as a failed TaskResult carrying the cause. -/
theorem executor_boundary_amended_witness :
    ((⟨none, some "neterr", none⟩ : ExecEnv).clearBefore = none ∧
      (⟨none, some "neterr", none⟩ : ExecEnv).clearAfter = none) ∧
    moss_run ⟨none, some "neterr", none⟩ = Except.ok ⟨false, some "neterr"⟩ :=
  ⟨⟨rfl, rfl⟩,
   (executor_boundary_amended ⟨none, some "neterr", none⟩ rfl rfl).1
     "neterr" rfl⟩
